import Mathlib

/-!
A shallow embedding of the circular-slider geometry core
(`src/utilities/circularGeometry.ts` and the rounded-end arc path builder),
with theorems checking the natural-language specification against it.

Numbers are modelled as elements of a linear ordered field (instantiated at
`ℚ` for concrete evaluation and at `ℝ` for the trigonometric parts).
The JavaScript `%` operator (truncated-division remainder) is modelled
explicitly by `jsMod`.
-/

namespace CircularGeometry

/-- The rotational sense of an angle description (`"cw" | "ccw"`). -/
inductive Direction where
  | cw
  | ccw
deriving DecidableEq

/-- The zero-degree reference axis of an angle description
(`"+x" | "-x" | "+y" | "-y"`). -/
inductive Axis where
  | px
  | nx
  | py
  | ny
deriving DecidableEq

/-- `AngleDescription`: a direction/axis pair naming an angular convention. -/
structure AngleDescription where
  direction : Direction
  axis : Axis
deriving DecidableEq

/-- `AngleWithDescription`: a degree value together with its description
(`{ degree: number } & AngleDescription`). -/
structure AngleWithDescription where
  degree : ℝ
  direction : Direction
  axis : Axis

/-- The letter at position 1 of the axis token (`from.axis[1]`):
`'x'` for `+x`/`-x`, `'y'` for `+y`/`-y`. -/
def Axis.letter : Axis → Char
  | .px => 'x'
  | .nx => 'x'
  | .py => 'y'
  | .ny => 'y'

/-- The two error kinds thrown by the geometry module. -/
inductive GeometryError where
  | invalidRange
  | internalInvariant
deriving DecidableEq

/-- JavaScript-style truncation toward zero. -/
def jsTrunc {α : Type} [LinearOrderedField α] [FloorRing α] (x : α) : ℤ :=
  if 0 ≤ x then ⌊x⌋ else -⌊-x⌋

/-- The JavaScript `%` operator on numbers: the truncated-division remainder
(sign of the dividend). -/
def jsMod {α : Type} [LinearOrderedField α] [FloorRing α] (a b : α) : α :=
  a - b * jsTrunc (a / b)

/-- `angleToValue` from `circularGeometry.ts`: clamped linear interpolation
from the angle range to the value range; throws when
`endAngle <= startAngle`. -/
def angleToValue {α : Type} [LinearOrderedField α]
    (angle minValue maxValue startAngle endAngle : α) :
    Except GeometryError α :=
  if endAngle ≤ startAngle then
    .error .invalidRange
  else if angle < startAngle then
    .ok minValue
  else if endAngle < angle then
    .ok maxValue
  else
    .ok ((angle - startAngle) / (endAngle - startAngle) * (maxValue - minValue) + minValue)

/-- `valueToAngle` from `circularGeometry.ts`: unclamped linear mapping from
the value range to the angle range; throws when `endAngle <= startAngle`. -/
def valueToAngle {α : Type} [LinearOrderedField α]
    (value minValue maxValue startAngle endAngle : α) :
    Except GeometryError α :=
  if endAngle ≤ startAngle then
    .error .invalidRange
  else
    .ok ((value - minValue) / (maxValue - minValue) * (endAngle - startAngle) + startAngle)

/-- The direction flip applied by `convertAngle` when the two descriptions
disagree on rotational sense: `degree === 0 ? 0 : 360 - degree`. -/
def flipDeg {α : Type} [LinearOrderedField α] (degree : α) : α :=
  if degree = 0 then 0 else 360 - degree

/-- The axis part of `convertAngle` (everything after the direction flip):
equal axes return the degree unchanged, same-line axes add 180, and the
perpendicular cases dispatch on `to.direction + from.axis + to.axis`. -/
def convertAxis {α : Type} [LinearOrderedField α] [FloorRing α]
    (d : α) (frAxis : Axis) (toDir : Direction) (toAxis : Axis) :
    Except GeometryError α :=
  if frAxis = toAxis then
    .ok d
  else if frAxis.letter = toAxis.letter then
    .ok (jsMod (180 + d) 360)
  else
    match toDir, frAxis, toAxis with
    | .ccw, .px, .ny | .ccw, .nx, .py | .ccw, .py, .px | .ccw, .ny, .nx
    | .cw, .py, .nx | .cw, .ny, .px | .cw, .nx, .ny | .cw, .px, .py =>
      .ok (jsMod (90 + d) 360)
    | .ccw, .py, .nx | .ccw, .ny, .px | .ccw, .px, .py | .ccw, .nx, .ny
    | .cw, .px, .ny | .cw, .nx, .py | .cw, .py, .px | .cw, .ny, .nx =>
      .ok (jsMod (270 + d) 360)
    | _, _, _ => .error .internalInvariant

/-- `convertAngle` from `circularGeometry.ts`: re-expresses a degree measured
under `fr` in terms of `to` (first the direction flip, then the axis cases). -/
def convertAngle {α : Type} [LinearOrderedField α] [FloorRing α]
    (degree : α) (fr tgt : AngleDescription) : Except GeometryError α :=
  convertAxis (if fr.direction ≠ tgt.direction then flipDeg degree else degree)
    fr.axis tgt.direction tgt.axis

/-- Congruence of two real degree values modulo 360. -/
def Congr360 (a b : ℝ) : Prop := ∃ k : ℤ, a - b = 360 * k

/-- The fixed rotational offset (in degrees, modulo 360) that `convertAngle`
adds after the direction flip, as a function of the from-axis, target
direction and target axis. -/
def cOff (frAxis : Axis) (toDir : Direction) (toAxis : Axis) : ℝ :=
  if frAxis = toAxis then 0
  else if frAxis.letter = toAxis.letter then 180
  else
    match toDir, frAxis, toAxis with
    | .ccw, .px, .ny | .ccw, .nx, .py | .ccw, .py, .px | .ccw, .ny, .nx
    | .cw, .py, .nx | .cw, .ny, .px | .cw, .nx, .ny | .cw, .px, .py => 90
    | _, _, _ => 270

/-- The eight (target-direction, from-axis, to-axis) pairings to which the
spec assigns offset +90°. -/
def plus90Pairings : List (Direction × Axis × Axis) :=
  [(.ccw, .px, .ny), (.ccw, .nx, .py), (.ccw, .py, .px), (.ccw, .ny, .nx),
   (.cw, .py, .nx), (.cw, .ny, .px), (.cw, .nx, .ny), (.cw, .px, .py)]

/-- The eight (target-direction, from-axis, to-axis) pairings to which the
spec assigns offset +270°. -/
def plus270Pairings : List (Direction × Axis × Axis) :=
  [(.ccw, .py, .nx), (.ccw, .ny, .px), (.ccw, .px, .py), (.ccw, .nx, .ny),
   (.cw, .px, .ny), (.cw, .nx, .py), (.cw, .py, .px), (.cw, .ny, .nx)]

/-- The §4.2 algorithm exactly as the spec words it, with `reduce modulo 360`
read as the JavaScript remainder of the code (`jsMod`): direction flip with 0 a
fixed point, degree unchanged on equal axes, +180° on same-line axes, and
+90°/+270° for the two enumerated perpendicular buckets. -/
noncomputable def specConvertAngle (degree : ℝ) (fr tgt : AngleDescription) : ℝ :=
  let d :=
    if fr.direction ≠ tgt.direction then (if degree = 0 then 0 else 360 - degree)
    else degree
  if fr.axis = tgt.axis then d
  else if fr.axis.letter = tgt.axis.letter then jsMod (180 + d) 360
  else if (tgt.direction, fr.axis, tgt.axis) ∈ plus90Pairings then jsMod (90 + d) 360
  else jsMod (270 + d) 360

/-- `Math.atan2(y, x)` modelled over the reals: the argument of the complex
number `x + y·i`, lying in `(-π, π]`. -/
noncomputable def atan2 (y x : ℝ) : ℝ := Complex.arg ⟨x, y⟩

/-- A screen position `(x, y)` (origin at the top-left, y growing downward). -/
structure Position where
  x : ℝ
  y : ℝ

/-- The trigonometric body of `angleToPosition`, applied to the already
converted (ccw/+x) degree: radians, the quadrant branching of the source for the
center-relative offset `(dX, dY)`, then translation to screen coordinates
`(dX + svgSize/2, svgSize/2 - dY)`. -/
noncomputable def angleToPositionCore (angleConverted radius svgSize : ℝ) :
    Position :=
  let angleInRad := angleConverted / 180 * Real.pi
  let dXY : ℝ × ℝ :=
    if angleInRad ≤ Real.pi then
      if angleInRad ≤ Real.pi / 2 then
        (Real.cos angleInRad * radius, Real.sin angleInRad * radius)
      else
        (Real.cos (Real.pi - angleInRad) * radius * (-1),
         Real.sin (Real.pi - angleInRad) * radius)
    else if angleInRad ≤ Real.pi * 1.5 then
      (Real.cos (angleInRad - Real.pi) * radius * (-1),
       Real.sin (angleInRad - Real.pi) * radius * (-1))
    else
      (Real.cos (2 * Real.pi - angleInRad) * radius,
       Real.sin (2 * Real.pi - angleInRad) * radius * (-1))
  ⟨dXY.1 + svgSize / 2, svgSize / 2 - dXY.2⟩

/-- `angleToPosition` from `circularGeometry.ts`: normalize the angle to the
ccw/+x convention via `convertAngle`, then run the trigonometric body. -/
noncomputable def angleToPosition (angle : AngleWithDescription)
    (radius svgSize : ℝ) : Except GeometryError Position :=
  (convertAngle angle.degree ⟨angle.direction, angle.axis⟩ ⟨.ccw, .px⟩).map
    fun angleConverted => angleToPositionCore angleConverted radius svgSize

/-- `positionToAngle` from `circularGeometry.ts`: center-relative offsets,
`atan2` normalized into `[0, 2π)`, conversion to degrees, then conversion
from the ccw/+x convention to the target description. -/
noncomputable def positionToAngle (position : Position) (svgSize : ℝ)
    (angleType : AngleDescription) : Except GeometryError ℝ :=
  let dX := position.x - svgSize / 2
  let dY := svgSize / 2 - position.y
  let theta0 := atan2 dY dX
  let theta := if theta0 < 0 then theta0 + 2 * Real.pi else theta0
  let degree := theta / Real.pi * 180
  convertAngle degree ⟨.ccw, .px⟩ angleType

/-- One `A` segment of the SVG path produced by `arcPathWithRoundedEnds`:
the two radii, the large-arc flag, the sweep flag, and the destination. -/
structure ArcSegment where
  rx : ℝ
  ry : ℝ
  largeArcFlag : Bool
  sweepFlag : Bool
  endPoint : Position

/-- The rounded-end arc path as a structured record: the `M` start point and
the four `A` segments in source order (inner arc, first cap, outer arc,
second cap), followed in the SVG string by `Z`. -/
structure ArcPath where
  startPoint : Position
  innerArc : ArcSegment
  firstButt : ArcSegment
  outerArc : ArcSegment
  secondButt : ArcSegment

/-- The end-angle rebinding at the top of `arcPathWithRoundedEnds`: when
`startAngle % 360 === endAngle % 360` (JavaScript remainders) and the two
angles are not numerically equal, the end angle is nudged down by 0.001. -/
noncomputable def effectiveEndAngle (startAngle endAngle : ℝ) : ℝ :=
  if jsMod startAngle 360 = jsMod endAngle 360 ∧ startAngle ≠ endAngle then
    endAngle - 0.001
  else endAngle

/-- `arcPathWithRoundedEnds`: nudges a full-circle end angle, computes the
large-arc flag from the raw (possibly nudged) difference, and builds the
four arc segments. -/
noncomputable def arcPathWithRoundedEnds (startAngle endAngle : ℝ)
    (angleType : AngleDescription) (innerRadius thickness svgSize : ℝ)
    (direction : Direction) : Except GeometryError ArcPath := do
  let endAngle := effectiveEndAngle startAngle endAngle
  let largeArc := if 180 ≤ endAngle - startAngle then true else false
  let outerRadius := innerRadius + thickness
  let innerArcStart ←
    angleToPosition ⟨startAngle, angleType.direction, angleType.axis⟩ innerRadius svgSize
  let innerArcEnd ←
    angleToPosition ⟨endAngle, angleType.direction, angleType.axis⟩ innerRadius svgSize
  let outerArcStart ←
    angleToPosition ⟨endAngle, angleType.direction, angleType.axis⟩ outerRadius svgSize
  let outerArcEnd ←
    angleToPosition ⟨startAngle, angleType.direction, angleType.axis⟩ outerRadius svgSize
  return ⟨innerArcStart,
    ⟨innerRadius, innerRadius, largeArc,
      (if direction = .cw then true else false), innerArcEnd⟩,
    ⟨thickness / 2, thickness / 2, largeArc,
      (if direction = .cw then false else true), outerArcStart⟩,
    ⟨outerRadius, outerRadius, largeArc,
      (if direction = .cw then false else true), outerArcEnd⟩,
    ⟨thickness / 2, thickness / 2, largeArc,
      (if direction = .cw then false else true), innerArcStart⟩⟩

theorem congr360_refl (a : ℝ) : Congr360 a a := ⟨0, by ring⟩

theorem congr360_of_eq {a b : ℝ} (h : a = b) : Congr360 a b := ⟨0, by rw [h]; ring⟩

theorem congr360_symm {a b : ℝ} (h : Congr360 a b) : Congr360 b a := by
  obtain ⟨k, hk⟩ := h
  exact ⟨-k, by push_cast; linarith⟩

theorem congr360_trans {a b c : ℝ} (h1 : Congr360 a b) (h2 : Congr360 b c) :
    Congr360 a c := by
  obtain ⟨k, hk⟩ := h1
  obtain ⟨l, hl⟩ := h2
  exact ⟨k + l, by push_cast; linarith⟩

theorem congr360_add_right {a b : ℝ} (c : ℝ) (h : Congr360 a b) :
    Congr360 (a + c) (b + c) := by
  obtain ⟨k, hk⟩ := h
  exact ⟨k, by linarith⟩

theorem congr360_neg {a b : ℝ} (h : Congr360 a b) : Congr360 (-a) (-b) := by
  obtain ⟨k, hk⟩ := h
  exact ⟨-k, by push_cast; linarith⟩

theorem jsMod_congr360 (a : ℝ) : Congr360 (jsMod a 360) a :=
  ⟨-jsTrunc (a / 360), by rw [jsMod]; push_cast; ring⟩

theorem flipDeg_congr360 (x : ℝ) : Congr360 (flipDeg x) (-x) := by
  rw [flipDeg]
  split_ifs with h
  · exact ⟨0, by rw [h]; ring⟩
  · exact ⟨1, by ring⟩

theorem flipDeg_bound {x : ℝ} (h0 : 0 ≤ x) (h1 : x < 360) :
    0 ≤ flipDeg x ∧ flipDeg x < 360 := by
  rw [flipDeg]
  split_ifs with h
  · norm_num
  · have : 0 < x := lt_of_le_of_ne h0 (Ne.symm h)
    constructor <;> linarith

theorem jsMod_eq_self {a : ℝ} (h0 : 0 ≤ a) (h1 : a < 360) : jsMod a 360 = a := by
  have hq : (0 : ℝ) ≤ a / 360 := div_nonneg h0 (by norm_num)
  have hfl : ⌊a / 360⌋ = 0 :=
    Int.floor_eq_zero_iff.mpr ⟨hq, (div_lt_one (by norm_num)).mpr h1⟩
  rw [jsMod, jsTrunc, if_pos hq, hfl]
  push_cast
  ring

theorem jsMod_eq_sub {a : ℝ} (h0 : 360 ≤ a) (h1 : a < 720) :
    jsMod a 360 = a - 360 := by
  have hq : (0 : ℝ) ≤ a / 360 := div_nonneg (by linarith) (by norm_num)
  have hfl : ⌊a / 360⌋ = 1 := by
    rw [Int.floor_eq_iff]
    constructor
    · push_cast
      rw [le_div_iff₀ (by norm_num : (0:ℝ) < 360)]
      linarith
    · push_cast
      rw [div_lt_iff₀ (by norm_num : (0:ℝ) < 360)]
      linarith
  rw [jsMod, jsTrunc, if_pos hq, hfl]
  push_cast
  ring

theorem jsMod_bound {a : ℝ} (h0 : 0 ≤ a) (h1 : a < 720) :
    0 ≤ jsMod a 360 ∧ jsMod a 360 < 360 := by
  by_cases h : a < 360
  · rw [jsMod_eq_self h0 h]
    exact ⟨h0, h⟩
  · rw [jsMod_eq_sub (not_lt.mp h) h1]
    constructor <;> linarith

theorem off_spec (d c : ℝ) (hc0 : 0 ≤ c) (hc1 : c ≤ 270) :
    Congr360 (jsMod (c + d) 360) (d + c) ∧
    (0 ≤ d → d < 360 → 0 ≤ jsMod (c + d) 360 ∧ jsMod (c + d) 360 < 360) := by
  constructor
  · exact congr360_trans (jsMod_congr360 _) (congr360_of_eq (add_comm c d))
  · intro h0 h1
    exact jsMod_bound (by linarith) (by linarith)

theorem convertAxis_spec (d : ℝ) (fa : Axis) (td : Direction) (ta : Axis) :
    ∃ v, convertAxis d fa td ta = .ok v ∧ Congr360 v (d + cOff fa td ta) ∧
      (0 ≤ d → d < 360 → 0 ≤ v ∧ v < 360) := by
  rcases fa <;> rcases td <;> rcases ta <;>
    simp only [convertAxis, cOff, Axis.letter, reduceCtorEq, reduceIte,
      Char.reduceEq, if_true, if_false] <;>
    first
      | exact ⟨d, rfl, by simpa using congr360_refl d, fun h0 h1 => ⟨h0, h1⟩⟩
      | exact ⟨_, rfl, (off_spec d 180 (by norm_num) (by norm_num)).1,
          (off_spec d 180 (by norm_num) (by norm_num)).2⟩
      | exact ⟨_, rfl, (off_spec d 90 (by norm_num) (by norm_num)).1,
          (off_spec d 90 (by norm_num) (by norm_num)).2⟩
      | exact ⟨_, rfl, (off_spec d 270 (by norm_num) (by norm_num)).1,
          (off_spec d 270 (by norm_num) (by norm_num)).2⟩

theorem convertAngle_spec (x : ℝ) (fr tgt : AngleDescription) :
    ∃ v, convertAngle x fr tgt = .ok v ∧
      Congr360 v ((if fr.direction = tgt.direction then x else -x) +
        cOff fr.axis tgt.direction tgt.axis) ∧
      (0 ≤ x → x < 360 → 0 ≤ v ∧ v < 360) := by
  rw [convertAngle]
  by_cases hdir : fr.direction = tgt.direction
  · rw [if_neg (not_not_intro hdir), if_pos hdir]
    exact convertAxis_spec x fr.axis tgt.direction tgt.axis
  · rw [if_pos hdir, if_neg hdir]
    obtain ⟨v, hv, hcong, hb⟩ := convertAxis_spec (flipDeg x) fr.axis tgt.direction tgt.axis
    refine ⟨v, hv, ?_, ?_⟩
    · exact congr360_trans hcong (congr360_add_right _ (flipDeg_congr360 x))
    · intro h0 h1
      obtain ⟨hf0, hf1⟩ := flipDeg_bound h0 h1
      exact hb hf0 hf1

/-- C1: for `endAngle > startAngle`, `angleToValue` returns `minValue` when
`angle < startAngle`, `maxValue` when `angle > endAngle`, and otherwise the
exact linear interpolation
`minValue + (angle - startAngle)/(endAngle - startAngle) * (maxValue - minValue)`,
with no clamping of the result and no constraint that
`maxValue ≥ minValue`. -/
theorem claim_C1_angleToValue_clamped_interpolation {α : Type} [LinearOrderedField α]
    (angle minValue maxValue startAngle endAngle : α)
    (h : startAngle < endAngle) :
    (angle < startAngle →
      angleToValue angle minValue maxValue startAngle endAngle = .ok minValue) ∧
    (endAngle < angle →
      angleToValue angle minValue maxValue startAngle endAngle = .ok maxValue) ∧
    (startAngle ≤ angle → angle ≤ endAngle →
      angleToValue angle minValue maxValue startAngle endAngle =
        .ok (minValue + (angle - startAngle) / (endAngle - startAngle) * (maxValue - minValue))) := by
  refine ⟨?_, ?_, ?_⟩
  · intro hlt
    rw [angleToValue, if_neg (not_le.mpr h), if_pos hlt]
  · intro hgt
    rw [angleToValue, if_neg (not_le.mpr h), if_neg (not_lt.mpr (le_of_lt (lt_of_lt_of_le h (le_of_lt hgt)))), if_pos hgt]
  · intro h1 h2
    rw [angleToValue, if_neg (not_le.mpr h), if_neg (not_lt.mpr h1), if_neg (not_lt.mpr h2)]
    congr 1
    ring

/-- Witness for C1 at the example inputs of the spec (`α := ℚ`). -/
theorem claim_C1_witness :
    (20 : ℚ) < 100 ∧
    (((10 : ℚ) < 20 →
      angleToValue (10 : ℚ) 0 100 20 100 = .ok 0) ∧
    ((100 : ℚ) < 10 →
      angleToValue (10 : ℚ) 0 100 20 100 = .ok 100) ∧
    ((20 : ℚ) ≤ 10 → (10 : ℚ) ≤ 100 →
      angleToValue (10 : ℚ) 0 100 20 100 =
        .ok (0 + (10 - 20) / (100 - 20) * (100 - 0)))) :=
  ⟨by norm_num,
   claim_C1_angleToValue_clamped_interpolation 10 0 100 20 100 (by norm_num)⟩

/-- C2: both mapping functions fail with `InvalidRange` exactly when
`endAngle ≤ startAngle` (including equality), and when the error is raised
no value is returned. -/
theorem claim_C2_invalid_range_iff {α : Type} [LinearOrderedField α]
    (angle value minValue maxValue startAngle endAngle : α) :
    (angleToValue angle minValue maxValue startAngle endAngle = .error .invalidRange ↔
      endAngle ≤ startAngle) ∧
    (valueToAngle value minValue maxValue startAngle endAngle = .error .invalidRange ↔
      endAngle ≤ startAngle) ∧
    (endAngle ≤ startAngle →
      (∀ v : α, angleToValue angle minValue maxValue startAngle endAngle ≠ .ok v) ∧
      (∀ v : α, valueToAngle value minValue maxValue startAngle endAngle ≠ .ok v)) := by
  refine ⟨?_, ?_, ?_⟩
  · constructor
    · intro hEq
      by_contra hc
      rw [angleToValue, if_neg hc] at hEq
      split_ifs at hEq
    · intro hle
      rw [angleToValue, if_pos hle]
  · constructor
    · intro hEq
      by_contra hc
      rw [valueToAngle, if_neg hc] at hEq
      exact Except.noConfusion hEq
    · intro hle
      rw [valueToAngle, if_pos hle]
  · intro hle
    constructor
    · intro v hEq
      rw [angleToValue, if_pos hle] at hEq
      exact Except.noConfusion hEq
    · intro v hEq
      rw [valueToAngle, if_pos hle] at hEq
      exact Except.noConfusion hEq

/-- C3: for `endAngle > startAngle` and `maxValue ≠ minValue`,
`valueToAngle` returns exactly
`startAngle + (value - minValue)/(maxValue - minValue) * (endAngle - startAngle)`;
in particular `minValue ↦ startAngle` and `maxValue ↦ endAngle` exactly, and
values outside `[minValue, maxValue]` extrapolate past
`[startAngle, endAngle]` with no clamping. -/
theorem claim_C3_valueToAngle_unclamped {α : Type} [LinearOrderedField α]
    (value minValue maxValue startAngle endAngle : α)
    (h : startAngle < endAngle) (hne : maxValue ≠ minValue) :
    (valueToAngle value minValue maxValue startAngle endAngle =
      .ok (startAngle + (value - minValue) / (maxValue - minValue) * (endAngle - startAngle))) ∧
    (valueToAngle minValue minValue maxValue startAngle endAngle = .ok startAngle) ∧
    (valueToAngle maxValue minValue maxValue startAngle endAngle = .ok endAngle) ∧
    (minValue < maxValue → maxValue < value →
      endAngle <
        startAngle + (value - minValue) / (maxValue - minValue) * (endAngle - startAngle)) ∧
    (minValue < maxValue → value < minValue →
      startAngle + (value - minValue) / (maxValue - minValue) * (endAngle - startAngle) <
        startAngle) := by
  have hno : ¬ endAngle ≤ startAngle := not_le.mpr h
  have hsub : maxValue - minValue ≠ 0 := sub_ne_zero.mpr hne
  refine ⟨?_, ?_, ?_, ?_, ?_⟩
  · rw [valueToAngle, if_neg hno]
    congr 1
    ring
  · rw [valueToAngle, if_neg hno]
    congr 1
    rw [sub_self, zero_div, zero_mul, zero_add]
  · rw [valueToAngle, if_neg hno]
    congr 1
    rw [div_self hsub, one_mul]
    ring
  · intro hlt hv
    have hd : (0 : α) < maxValue - minValue := sub_pos.mpr hlt
    have hratio : (1 : α) < (value - minValue) / (maxValue - minValue) := by
      rw [lt_div_iff₀ hd]
      linarith
    nlinarith [sub_pos.mpr h]
  · intro hlt hv
    have hd : (0 : α) < maxValue - minValue := sub_pos.mpr hlt
    have hratio : (value - minValue) / (maxValue - minValue) < 0 :=
      div_neg_of_neg_of_pos (sub_neg.mpr hv) hd
    nlinarith [sub_pos.mpr h]

/-- Witness for C3 at the example inputs of the spec plus an extrapolating value
(`α := ℚ`). -/
theorem claim_C3_witness :
    (30 : ℚ) < 90 ∧ (100 : ℚ) ≠ 0 ∧
    ((valueToAngle (150 : ℚ) 0 100 30 90 =
      .ok (30 + (150 - 0) / (100 - 0) * (90 - 30))) ∧
    (valueToAngle (0 : ℚ) 0 100 30 90 = .ok 30) ∧
    (valueToAngle (100 : ℚ) 0 100 30 90 = .ok 90) ∧
    ((0 : ℚ) < 100 → (100 : ℚ) < 150 →
      (90 : ℚ) < 30 + (150 - 0) / (100 - 0) * (90 - 30)) ∧
    ((0 : ℚ) < 100 → (150 : ℚ) < 0 →
      (30 : ℚ) + (150 - 0) / (100 - 0) * (90 - 30) < 30)) :=
  ⟨by norm_num, by norm_num,
   claim_C3_valueToAngle_unclamped 150 0 100 30 90 (by norm_num) (by norm_num)⟩

/-- C5 (amended): `convertAngle` follows the §4.2 algorithm — direction flip
with 0 a fixed point, unchanged degree on equal axes, +180° on same-line
axes, and +90°/+270° per the two enumerated buckets of eight pairings —
where `reduce modulo 360` is the JavaScript truncated remainder of the code
(which, for a negative operand such as degree −200 on same-line axes, keeps
the negative representative instead of the mathematical residue). -/
theorem claim_C5_convertAngle_follows_spec_algorithm (x : ℝ)
    (fr tgt : AngleDescription) :
    convertAngle x fr tgt = .ok (specConvertAngle x fr tgt) ∧
    (fr.axis ≠ tgt.axis → fr.axis.letter ≠ tgt.axis.letter →
      ((tgt.direction, fr.axis, tgt.axis) ∈ plus90Pairings ∧
        (tgt.direction, fr.axis, tgt.axis) ∉ plus270Pairings) ∨
      ((tgt.direction, fr.axis, tgt.axis) ∈ plus270Pairings ∧
        (tgt.direction, fr.axis, tgt.axis) ∉ plus90Pairings)) := by
  obtain ⟨fd, fa⟩ := fr
  obtain ⟨td, ta⟩ := tgt
  rcases fd <;> rcases td <;> rcases fa <;> rcases ta <;>
    simp [convertAngle, convertAxis, specConvertAngle, flipDeg, plus90Pairings,
      plus270Pairings, Axis.letter]

/-- C5 counterexample: the claim formula `(180 + degree) mod 360`, read as the
mathematical residue `a - 360·⌊a/360⌋`, fails at degree −200 with same-line
axes `+x → -x` (same direction): the code returns −20, not 340. -/
theorem claim_C5_counterexample :
    convertAngle (-200 : ℝ) ⟨.ccw, .px⟩ ⟨.ccw, .nx⟩ = .ok (-20) ∧
    ¬ ((-20 : ℝ) =
        (180 + (-200 : ℝ)) - 360 * ⌊((180 : ℝ) + (-200)) / 360⌋) := by
  constructor
  · have h0 : ¬ (0 : ℝ) ≤ (180 + (-200 : ℝ)) / 360 := by norm_num
    have hfl : ⌊-((180 + (-200 : ℝ)) / 360)⌋ = 0 := by
      rw [Int.floor_eq_zero_iff]
      constructor <;> norm_num
    simp only [convertAngle, convertAxis, specConvertAngle, Axis.letter,
      reduceCtorEq, reduceIte, Char.reduceEq, ne_eq, not_true_eq_false,
      if_false, if_true]
    rw [jsMod, jsTrunc, if_neg h0, hfl]
    norm_num
  · have hfl : ⌊((180 : ℝ) + (-200)) / 360⌋ = -1 := by
      rw [Int.floor_eq_iff]
      constructor <;> norm_num
    rw [hfl]
    norm_num

/-- C6: the defensive default branch of `convertAngle` is unreachable on the
4 axes × 2 directions input space: for every degree and every pair of valid
descriptions it returns a value and never raises `InternalInvariant`. -/
theorem claim_C6_internal_invariant_unreachable (degree : ℝ)
    (fr tgt : AngleDescription) :
    (∃ v, convertAngle degree fr tgt = .ok v) ∧
    convertAngle degree fr tgt ≠ .error .internalInvariant := by
  obtain ⟨v, hv, -, -⟩ := convertAngle_spec degree fr tgt
  refine ⟨⟨v, hv⟩, ?_⟩
  rw [hv]
  exact fun h => Except.noConfusion h

theorem angleToPositionCore_eq (c radius svgSize : ℝ) :
    angleToPositionCore c radius svgSize =
      ⟨radius * Real.cos (c / 180 * Real.pi) + svgSize / 2,
       svgSize / 2 - radius * Real.sin (c / 180 * Real.pi)⟩ := by
  rw [angleToPositionCore]
  split_ifs <;>
    refine congrArg₂ Position.mk ?_ ?_ <;>
    simp only [Real.cos_pi_sub, Real.sin_pi_sub, Real.cos_sub_pi,
      Real.sin_sub_pi, Real.cos_two_pi_sub, Real.sin_two_pi_sub] <;>
    ring

theorem angleToPosition_eq (a : AngleWithDescription) (radius svgSize c : ℝ)
    (hc : convertAngle a.degree ⟨a.direction, a.axis⟩ ⟨.ccw, .px⟩ = .ok c) :
    angleToPosition a radius svgSize =
      .ok ⟨radius * Real.cos (c / 180 * Real.pi) + svgSize / 2,
           svgSize / 2 - radius * Real.sin (c / 180 * Real.pi)⟩ := by
  rw [angleToPosition, hc, Except.map, angleToPositionCore_eq]

theorem atan2_eval {r θ : ℝ} (hr : 0 < r)
    (hθ : θ ∈ Set.Ioc (-Real.pi) Real.pi) :
    atan2 (r * Real.sin θ) (r * Real.cos θ) = θ := by
  rw [atan2]
  have hz : (⟨r * Real.cos θ, r * Real.sin θ⟩ : ℂ) =
      (r : ℂ) * (Complex.cos (θ : ℂ) + Complex.sin (θ : ℂ) * Complex.I) := by
    rw [← Complex.ofReal_cos, ← Complex.ofReal_sin, ← Complex.mk_eq_add_mul_I,
      Complex.ofReal_mul']
  rw [hz]
  exact Complex.arg_mul_cos_add_sin_mul_I hr hθ

theorem atan2_congr (r θ : ℝ) (hr : 0 < r) :
    atan2 (r * Real.sin θ) (r * Real.cos θ) ∈ Set.Ioc (-Real.pi) Real.pi ∧
    ∃ m : ℤ, atan2 (r * Real.sin θ) (r * Real.cos θ) =
      θ - (m : ℝ) * (2 * Real.pi) := by
  have hmem2 : toIocMod Real.two_pi_pos (-Real.pi) θ ∈
      Set.Ioc (-Real.pi) Real.pi := by
    have hmem := toIocMod_mem_Ioc Real.two_pi_pos (-Real.pi) θ
    have hπ : -Real.pi + 2 * Real.pi = Real.pi := by ring
    rwa [hπ] at hmem
  have hsub := self_sub_toIocMod Real.two_pi_pos (-Real.pi) θ
  rw [zsmul_eq_mul] at hsub
  have hθeq : toIocMod Real.two_pi_pos (-Real.pi) θ =
      θ - (toIocDiv Real.two_pi_pos (-Real.pi) θ : ℝ) * (2 * Real.pi) := by
    linarith
  have hcos : Real.cos (toIocMod Real.two_pi_pos (-Real.pi) θ) = Real.cos θ := by
    rw [hθeq]
    exact Real.cos_sub_int_mul_two_pi θ _
  have hsin : Real.sin (toIocMod Real.two_pi_pos (-Real.pi) θ) = Real.sin θ := by
    rw [hθeq]
    exact Real.sin_sub_int_mul_two_pi θ _
  have heval : atan2 (r * Real.sin θ) (r * Real.cos θ) =
      toIocMod Real.two_pi_pos (-Real.pi) θ := by
    rw [← hcos, ← hsin]
    exact atan2_eval hr hmem2
  rw [heval]
  exact ⟨hmem2, toIocDiv Real.two_pi_pos (-Real.pi) θ, hθeq⟩

theorem norm_deg_spec {t0 : ℝ} (h : t0 ∈ Set.Ioc (-Real.pi) Real.pi) :
    (0 ≤ (if t0 < 0 then t0 + 2 * Real.pi else t0) / Real.pi * 180 ∧
     (if t0 < 0 then t0 + 2 * Real.pi else t0) / Real.pi * 180 < 360) ∧
    ∃ j : ℤ, (if t0 < 0 then t0 + 2 * Real.pi else t0) =
      t0 + (j : ℝ) * (2 * Real.pi) := by
  obtain ⟨hl, hu⟩ := h
  have hpi := Real.pi_pos
  split_ifs with hneg
  · refine ⟨⟨?_, ?_⟩, 1, by push_cast; ring⟩
    · apply mul_nonneg _ (by norm_num)
      apply div_nonneg _ hpi.le
      linarith
    · rw [div_mul_eq_mul_div, div_lt_iff₀ hpi]
      linarith
  · refine ⟨⟨?_, ?_⟩, 0, by push_cast; ring⟩
    · apply mul_nonneg _ (by norm_num)
      exact div_nonneg (not_lt.mp hneg) hpi.le
    · rw [div_mul_eq_mul_div, div_lt_iff₀ hpi]
      linarith

theorem positionToAngle_spec (r θ s : ℝ) (tgt : AngleDescription) (hr : 0 < r) :
    ∃ v, positionToAngle ⟨r * Real.cos θ + s / 2, s / 2 - r * Real.sin θ⟩ s tgt =
        .ok v ∧
      (0 ≤ v ∧ v < 360) ∧
      Congr360 v ((if Direction.ccw = tgt.direction then θ * 180 / Real.pi
                    else -(θ * 180 / Real.pi)) + cOff .px tgt.direction tgt.axis) := by
  have e1 : r * Real.cos θ + s / 2 - s / 2 = r * Real.cos θ := by ring
  have e2 : s / 2 - (s / 2 - r * Real.sin θ) = r * Real.sin θ := by ring
  obtain ⟨hmem2, m, hm⟩ := atan2_congr r θ hr
  obtain ⟨⟨hb0, hb1⟩, j, hj⟩ := norm_deg_spec hmem2
  obtain ⟨v, hok, hcong, hb⟩ := convertAngle_spec
    ((if atan2 (r * Real.sin θ) (r * Real.cos θ) < 0 then
        atan2 (r * Real.sin θ) (r * Real.cos θ) + 2 * Real.pi
      else atan2 (r * Real.sin θ) (r * Real.cos θ)) / Real.pi * 180)
    ⟨.ccw, .px⟩ tgt
  refine ⟨v, ?_, hb hb0 hb1, ?_⟩
  · simp only [positionToAngle, e1, e2]
    exact hok
  · have hdeg : Congr360
        ((if atan2 (r * Real.sin θ) (r * Real.cos θ) < 0 then
            atan2 (r * Real.sin θ) (r * Real.cos θ) + 2 * Real.pi
          else atan2 (r * Real.sin θ) (r * Real.cos θ)) / Real.pi * 180)
        (θ * 180 / Real.pi) := by
      refine ⟨j - m, ?_⟩
      rw [hj, hm]
      push_cast
      field_simp
      ring
    have hstep : Congr360
        ((if Direction.ccw = tgt.direction then
            (if atan2 (r * Real.sin θ) (r * Real.cos θ) < 0 then
              atan2 (r * Real.sin θ) (r * Real.cos θ) + 2 * Real.pi
            else atan2 (r * Real.sin θ) (r * Real.cos θ)) / Real.pi * 180
          else
            -((if atan2 (r * Real.sin θ) (r * Real.cos θ) < 0 then
                atan2 (r * Real.sin θ) (r * Real.cos θ) + 2 * Real.pi
              else atan2 (r * Real.sin θ) (r * Real.cos θ)) / Real.pi * 180)) +
          cOff .px tgt.direction tgt.axis)
        ((if Direction.ccw = tgt.direction then θ * 180 / Real.pi
          else -(θ * 180 / Real.pi)) + cOff .px tgt.direction tgt.axis) := by
      by_cases hbdir : Direction.ccw = tgt.direction
      · rw [if_pos hbdir, if_pos hbdir]
        exact congr360_add_right _ hdeg
      · rw [if_neg hbdir, if_neg hbdir]
        exact congr360_add_right _ (congr360_neg hdeg)
    exact congr360_trans hcong hstep

/-- C4: for every degree `a`, every radius `> 0`, every svgSize and every
description `d`, `positionToAngle (angleToPosition {degree := a, ...d}) d`
recovers `a` modulo 360; over the reals the round trip is exact (the claimed
floating-point tolerance is equality here). -/
theorem claim_C4_position_angle_round_trip (a : ℝ) (d : AngleDescription)
    (radius svgSize : ℝ) (hr : 0 < radius) :
    ∃ p v, angleToPosition ⟨a, d.direction, d.axis⟩ radius svgSize = .ok p ∧
      positionToAngle p svgSize d = .ok v ∧ Congr360 v a := by
  obtain ⟨c, hc, hccong, -⟩ := convertAngle_spec a ⟨d.direction, d.axis⟩ ⟨.ccw, .px⟩
  have hpos : angleToPosition ⟨a, d.direction, d.axis⟩ radius svgSize =
      .ok ⟨radius * Real.cos (c / 180 * Real.pi) + svgSize / 2,
           svgSize / 2 - radius * Real.sin (c / 180 * Real.pi)⟩ :=
    angleToPosition_eq ⟨a, d.direction, d.axis⟩ radius svgSize c hc
  obtain ⟨v, hok, -, hvcong⟩ :=
    positionToAngle_spec radius (c / 180 * Real.pi) svgSize d hr
  have hcback : c / 180 * Real.pi * 180 / Real.pi = c := by
    field_simp
  rw [hcback] at hvcong
  refine ⟨_, v, hpos, hok, ?_⟩
  obtain ⟨dd, da⟩ := d
  rcases dd <;> rcases da <;>
    simp only [cOff, Axis.letter, reduceCtorEq, reduceIte, Char.reduceEq,
      if_true, if_false, add_zero] at hccong hvcong <;>
    obtain ⟨k1, hk1⟩ := hccong <;>
    obtain ⟨k2, hk2⟩ := hvcong <;>
    first
      | exact ⟨k1 + k2, by push_cast at hk1 hk2 ⊢; linarith⟩
      | exact ⟨k1 + k2 + 1, by push_cast at hk1 hk2 ⊢; linarith⟩
      | exact ⟨k2 - k1, by push_cast at hk1 hk2 ⊢; linarith⟩

/-- Witness for C4 at degree 0, ccw/+x, radius 50, svgSize 200. -/
theorem claim_C4_witness :
    (0 : ℝ) < 50 ∧
    ∃ p v, angleToPosition ⟨0, Direction.ccw, Axis.px⟩ 50 200 = .ok p ∧
      positionToAngle p 200 ⟨Direction.ccw, Axis.px⟩ = .ok v ∧ Congr360 v 0 :=
  ⟨by norm_num,
   claim_C4_position_angle_round_trip 0 ⟨.ccw, .px⟩ 50 200 (by norm_num)⟩

/-- C10: `positionToAngle` always returns a degree in `[0, 360)` (the atan2
result is normalized into `[0, 2π)` before conversion to degrees), and
`convertAngle` maps a degree in `[0, 360)` to a degree in `[0, 360)`. -/
theorem claim_C10_positionToAngle_range (position : Position) (svgSize : ℝ)
    (angleType : AngleDescription) :
    (∃ v, positionToAngle position svgSize angleType = .ok v ∧
      0 ≤ v ∧ v < 360) ∧
    (∀ x : ℝ, 0 ≤ x → x < 360 → ∀ fr tgt : AngleDescription,
      ∃ w, convertAngle x fr tgt = .ok w ∧ 0 ≤ w ∧ w < 360) := by
  constructor
  · have hmem : atan2 (svgSize / 2 - position.y) (position.x - svgSize / 2) ∈
        Set.Ioc (-Real.pi) Real.pi := Complex.arg_mem_Ioc _
    obtain ⟨⟨hb0, hb1⟩, -⟩ := norm_deg_spec hmem
    obtain ⟨v, hok, -, hb⟩ := convertAngle_spec
      ((if atan2 (svgSize / 2 - position.y) (position.x - svgSize / 2) < 0 then
          atan2 (svgSize / 2 - position.y) (position.x - svgSize / 2) +
            2 * Real.pi
        else atan2 (svgSize / 2 - position.y) (position.x - svgSize / 2)) /
        Real.pi * 180) ⟨.ccw, .px⟩ angleType
    refine ⟨v, ?_, hb hb0 hb1⟩
    simp only [positionToAngle]
    exact hok
  · intro x h0 h1 fr tgt
    obtain ⟨w, hw, -, hb⟩ := convertAngle_spec x fr tgt
    exact ⟨w, hw, hb h0 h1⟩

/-- C9: the cardinal directions under ccw/+x with `svgSize = 200`,
`radius = 50`: degrees 0/90/180/270 map to (150,100)/(100,50)/(50,100)/
(100,150), and `positionToAngle` maps those positions back to
0°/90°/180°/270° exactly. -/
theorem claim_C9_cardinal_directions :
    angleToPosition ⟨0, .ccw, .px⟩ 50 200 = .ok ⟨150, 100⟩ ∧
    angleToPosition ⟨90, .ccw, .px⟩ 50 200 = .ok ⟨100, 50⟩ ∧
    angleToPosition ⟨180, .ccw, .px⟩ 50 200 = .ok ⟨50, 100⟩ ∧
    angleToPosition ⟨270, .ccw, .px⟩ 50 200 = .ok ⟨100, 150⟩ ∧
    positionToAngle ⟨150, 100⟩ 200 ⟨.ccw, .px⟩ = .ok 0 ∧
    positionToAngle ⟨100, 50⟩ 200 ⟨.ccw, .px⟩ = .ok 90 ∧
    positionToAngle ⟨50, 100⟩ 200 ⟨.ccw, .px⟩ = .ok 180 ∧
    positionToAngle ⟨100, 150⟩ 200 ⟨.ccw, .px⟩ = .ok 270 := by
  have hpi := Real.pi_pos
  have hid : ∀ x : ℝ, convertAngle x ⟨.ccw, .px⟩ ⟨.ccw, .px⟩ = .ok x := by
    intro x
    simp [convertAngle, convertAxis]
  refine ⟨?_, ?_, ?_, ?_, ?_, ?_, ?_, ?_⟩
  · rw [angleToPosition_eq ⟨0, .ccw, .px⟩ 50 200 0 (hid 0)]
    norm_num [Real.cos_zero, Real.sin_zero]
  · rw [angleToPosition_eq ⟨90, .ccw, .px⟩ 50 200 90 (hid 90)]
    have h : (90 : ℝ) / 180 * Real.pi = Real.pi / 2 := by ring
    rw [h, Real.cos_pi_div_two, Real.sin_pi_div_two]
    norm_num
  · rw [angleToPosition_eq ⟨180, .ccw, .px⟩ 50 200 180 (hid 180)]
    have h : (180 : ℝ) / 180 * Real.pi = Real.pi := by ring
    rw [h, Real.cos_pi, Real.sin_pi]
    norm_num
  · rw [angleToPosition_eq ⟨270, .ccw, .px⟩ 50 200 270 (hid 270)]
    have h : (270 : ℝ) / 180 * Real.pi = Real.pi / 2 + Real.pi := by ring
    rw [h, Real.cos_add_pi, Real.sin_add_pi, Real.cos_pi_div_two,
      Real.sin_pi_div_two]
    norm_num
  · have h0 : atan2 (200 / 2 - 100 : ℝ) (150 - 200 / 2) = 0 := by
      have h := atan2_eval (r := 50) (θ := 0) (by norm_num)
        ⟨by linarith, by linarith⟩
      rw [Real.sin_zero, Real.cos_zero] at h
      norm_num at h ⊢
      exact h
    simp only [positionToAngle]
    rw [h0, if_neg (lt_irrefl (0 : ℝ))]
    have hdeg : (0 : ℝ) / Real.pi * 180 = 0 := by
      rw [zero_div, zero_mul]
    rw [hdeg]
    exact hid 0
  · have h0 : atan2 (200 / 2 - 50 : ℝ) (100 - 200 / 2) = Real.pi / 2 := by
      have h := atan2_eval (r := 50) (θ := Real.pi / 2) (by norm_num)
        ⟨by linarith, by linarith⟩
      rw [Real.sin_pi_div_two, Real.cos_pi_div_two] at h
      norm_num at h ⊢
      exact h
    simp only [positionToAngle]
    rw [h0, if_neg (by linarith : ¬ Real.pi / 2 < 0)]
    have hdeg : Real.pi / 2 / Real.pi * 180 = 90 := by
      field_simp
      ring
    rw [hdeg]
    exact hid 90
  · have h0 : atan2 (200 / 2 - 100 : ℝ) (50 - 200 / 2) = Real.pi := by
      have h := atan2_eval (r := 50) (θ := Real.pi) (by norm_num)
        ⟨by linarith, le_refl _⟩
      rw [Real.sin_pi, Real.cos_pi] at h
      norm_num at h ⊢
      exact h
    simp only [positionToAngle]
    rw [h0, if_neg (by linarith : ¬ Real.pi < 0)]
    have hdeg : Real.pi / Real.pi * 180 = 180 := by
      field_simp
    rw [hdeg]
    exact hid 180
  · have h0 : atan2 (200 / 2 - 150 : ℝ) (100 - 200 / 2) = -(Real.pi / 2) := by
      have h := atan2_eval (r := 50) (θ := -(Real.pi / 2)) (by norm_num)
        ⟨by linarith, by linarith⟩
      rw [Real.sin_neg, Real.cos_neg, Real.sin_pi_div_two,
        Real.cos_pi_div_two] at h
      norm_num at h ⊢
      exact h
    simp only [positionToAngle]
    rw [h0, if_pos (by linarith : -(Real.pi / 2) < 0)]
    have hdeg : (-(Real.pi / 2) + 2 * Real.pi) / Real.pi * 180 = 270 := by
      field_simp
      ring
    rw [hdeg]
    exact hid 270

theorem arcPath_eq (startAngle endAngle : ℝ) (angleType : AngleDescription)
    (innerRadius thickness svgSize : ℝ) (direction : Direction) :
    ∃ c1 c2 : ℝ,
      convertAngle startAngle ⟨angleType.direction, angleType.axis⟩
          ⟨.ccw, .px⟩ = .ok c1 ∧
      convertAngle (effectiveEndAngle startAngle endAngle)
          ⟨angleType.direction, angleType.axis⟩ ⟨.ccw, .px⟩ = .ok c2 ∧
      arcPathWithRoundedEnds startAngle endAngle angleType innerRadius
          thickness svgSize direction =
        .ok ⟨angleToPositionCore c1 innerRadius svgSize,
          ⟨innerRadius, innerRadius,
            (if 180 ≤ effectiveEndAngle startAngle endAngle - startAngle then
              true else false),
            (if direction = .cw then true else false),
            angleToPositionCore c2 innerRadius svgSize⟩,
          ⟨thickness / 2, thickness / 2,
            (if 180 ≤ effectiveEndAngle startAngle endAngle - startAngle then
              true else false),
            (if direction = .cw then false else true),
            angleToPositionCore c2 (innerRadius + thickness) svgSize⟩,
          ⟨innerRadius + thickness, innerRadius + thickness,
            (if 180 ≤ effectiveEndAngle startAngle endAngle - startAngle then
              true else false),
            (if direction = .cw then false else true),
            angleToPositionCore c1 (innerRadius + thickness) svgSize⟩,
          ⟨thickness / 2, thickness / 2,
            (if 180 ≤ effectiveEndAngle startAngle endAngle - startAngle then
              true else false),
            (if direction = .cw then false else true),
            angleToPositionCore c1 innerRadius svgSize⟩⟩ := by
  obtain ⟨c1, hc1, -, -⟩ :=
    convertAngle_spec startAngle ⟨angleType.direction, angleType.axis⟩ ⟨.ccw, .px⟩
  obtain ⟨c2, hc2, -, -⟩ :=
    convertAngle_spec (effectiveEndAngle startAngle endAngle)
      ⟨angleType.direction, angleType.axis⟩ ⟨.ccw, .px⟩
  have h1 : angleToPosition ⟨startAngle, angleType.direction, angleType.axis⟩
      innerRadius svgSize = .ok (angleToPositionCore c1 innerRadius svgSize) := by
    rw [angleToPosition, hc1, Except.map]
  have h2 : angleToPosition
      ⟨effectiveEndAngle startAngle endAngle, angleType.direction, angleType.axis⟩
      innerRadius svgSize = .ok (angleToPositionCore c2 innerRadius svgSize) := by
    rw [angleToPosition, hc2, Except.map]
  have h3 : angleToPosition
      ⟨effectiveEndAngle startAngle endAngle, angleType.direction, angleType.axis⟩
      (innerRadius + thickness) svgSize =
      .ok (angleToPositionCore c2 (innerRadius + thickness) svgSize) := by
    rw [angleToPosition, hc2, Except.map]
  have h4 : angleToPosition ⟨startAngle, angleType.direction, angleType.axis⟩
      (innerRadius + thickness) svgSize =
      .ok (angleToPositionCore c1 (innerRadius + thickness) svgSize) := by
    rw [angleToPosition, hc1, Except.map]
  refine ⟨c1, c2, hc1, hc2, ?_⟩
  simp only [arcPathWithRoundedEnds, h1, h2, h3, h4]
  rfl

/-- C7 counterexample: with `direction = cw` the claim asserts both main
arcs carry sweep flag 1 and the caps 0, but at a concrete input the code
gives the inner arc flag 1 while the first cap and the outer arc both get
flag 0: the outer arc does not sweep with `direction`. -/
theorem claim_C7_counterexample :
    (arcPathWithRoundedEnds 0 90 ⟨.ccw, .px⟩ 50 10 200 .cw).map
        (fun path => (path.innerArc.sweepFlag, path.firstButt.sweepFlag,
          path.outerArc.sweepFlag)) =
      .ok (true, false, false) := by
  obtain ⟨c1, c2, -, -, h⟩ := arcPath_eq 0 90 ⟨.ccw, .px⟩ 50 10 200 .cw
  rw [h]
  rfl

/-- C7 (amended): in the path produced by `arcPathWithRoundedEnds`, the
inner main arc sweeps according to `direction` (flag 1 exactly for cw),
while the outer main arc and both end-cap arcs carry the complementary
sweep flag. -/
theorem claim_C7_sweep_flags (startAngle endAngle : ℝ)
    (angleType : AngleDescription) (innerRadius thickness svgSize : ℝ)
    (direction : Direction) :
    ∃ path, arcPathWithRoundedEnds startAngle endAngle angleType innerRadius
        thickness svgSize direction = .ok path ∧
      path.innerArc.sweepFlag = (if direction = .cw then true else false) ∧
      path.firstButt.sweepFlag = (if direction = .cw then false else true) ∧
      path.outerArc.sweepFlag = (if direction = .cw then false else true) ∧
      path.secondButt.sweepFlag = (if direction = .cw then false else true) := by
  obtain ⟨c1, c2, -, -, h⟩ := arcPath_eq startAngle endAngle angleType
    innerRadius thickness svgSize direction
  exact ⟨_, h, rfl, rfl, rfl, rfl⟩

/-- C8 counterexample: `startAngle = -180` and `endAngle = 180` are congruent
modulo 360 and not numerically equal, yet the end angle is not reduced by
0.001: the JavaScript remainders −180 and 180 differ, so the nudge condition
in `arcPathWithRoundedEnds` is not triggered. -/
theorem claim_C8_counterexample :
    (∃ k : ℤ, (180 : ℝ) - (-180) = 360 * k) ∧ ((-180 : ℝ) ≠ 180) ∧
    effectiveEndAngle (-180) 180 = 180 ∧ (180 : ℝ) ≠ 180 - 0.001 := by
  have hneg : jsMod (-180 : ℝ) 360 = -180 := by
    have h1 : ⌊-((-180 : ℝ) / 360)⌋ = 0 := by
      rw [Int.floor_eq_zero_iff]
      constructor <;> norm_num
    rw [jsMod, jsTrunc, if_neg (by norm_num), h1]
    norm_num
  have hpos : jsMod (180 : ℝ) 360 = 180 :=
    jsMod_eq_self (by norm_num) (by norm_num)
  have hcond : ¬ (jsMod (-180 : ℝ) 360 = jsMod (180 : ℝ) 360 ∧
      (-180 : ℝ) ≠ 180) := by
    rintro ⟨heq, -⟩
    rw [hneg, hpos] at heq
    norm_num at heq
  refine ⟨⟨1, by norm_num⟩, by norm_num, ?_, by norm_num⟩
  rw [effectiveEndAngle, if_neg hcond]

/-- C8 (amended): the full-circle nudge fires exactly when the JavaScript
remainders `startAngle % 360` and `endAngle % 360` coincide and the angles
are not numerically equal (mathematically congruent pairs whose remainders
differ in sign, such as −180 and 180, are not nudged); the flag of every segment
large-arc flag is true iff the possibly nudged raw difference
`endAngle - startAngle` is ≥ 180, with no normalization into `[0, 360)`;
and the full-circle input `(0, 360)` is nudged to 359.999 and does not
degenerate: its start point and inner-arc end point differ. -/
theorem claim_C8_nudge_and_large_arc (startAngle endAngle : ℝ)
    (angleType : AngleDescription) (innerRadius thickness svgSize : ℝ)
    (direction : Direction) :
    (jsMod startAngle 360 = jsMod endAngle 360 ∧ startAngle ≠ endAngle →
      effectiveEndAngle startAngle endAngle = endAngle - 0.001) ∧
    (¬ (jsMod startAngle 360 = jsMod endAngle 360 ∧ startAngle ≠ endAngle) →
      effectiveEndAngle startAngle endAngle = endAngle) ∧
    (∃ path, arcPathWithRoundedEnds startAngle endAngle angleType innerRadius
        thickness svgSize direction = .ok path ∧
      path.innerArc.largeArcFlag =
        (if 180 ≤ effectiveEndAngle startAngle endAngle - startAngle then
          true else false) ∧
      path.firstButt.largeArcFlag = path.innerArc.largeArcFlag ∧
      path.outerArc.largeArcFlag = path.innerArc.largeArcFlag ∧
      path.secondButt.largeArcFlag = path.innerArc.largeArcFlag) ∧
    effectiveEndAngle 0 360 = 360 - 0.001 ∧
    (∃ path, arcPathWithRoundedEnds 0 360 ⟨.ccw, .px⟩ 50 10 200 .ccw =
        .ok path ∧
      path.startPoint ≠ path.innerArc.endPoint) := by
  have heff : effectiveEndAngle 0 360 = 360 - 0.001 := by
    have hz : jsMod (0 : ℝ) 360 = 0 := jsMod_eq_self (le_refl 0) (by norm_num)
    have h360 : jsMod (360 : ℝ) 360 = 0 := by
      rw [jsMod_eq_sub (le_refl 360) (by norm_num)]
      norm_num
    rw [effectiveEndAngle, if_pos ⟨by rw [hz, h360], by norm_num⟩]
  refine ⟨?_, ?_, ?_, heff, ?_⟩
  · intro h
    rw [effectiveEndAngle, if_pos h]
  · intro h
    rw [effectiveEndAngle, if_neg h]
  · obtain ⟨c1, c2, -, -, h⟩ := arcPath_eq startAngle endAngle angleType
      innerRadius thickness svgSize direction
    exact ⟨_, h, rfl, rfl, rfl, rfl⟩
  · obtain ⟨c1, c2, hc1, hc2, h⟩ := arcPath_eq 0 360 ⟨.ccw, .px⟩ 50 10 200 .ccw
    have hidx : ∀ x : ℝ, convertAngle x ⟨.ccw, .px⟩ ⟨.ccw, .px⟩ = .ok x := by
      intro x
      simp [convertAngle, convertAxis]
    have hc1v : c1 = 0 := Except.ok.inj (hc1.symm.trans (hidx 0))
    have hc2v : c2 = 360 - 0.001 := by
      rw [heff] at hc2
      exact Except.ok.inj (hc2.symm.trans (hidx (360 - 0.001)))
    subst hc1v
    subst hc2v
    refine ⟨_, h, ?_⟩
    show angleToPositionCore 0 50 200 ≠ angleToPositionCore (360 - 0.001) 50 200
    rw [angleToPositionCore_eq, angleToPositionCore_eq]
    intro heq
    rw [Position.mk.injEq] at heq
    obtain ⟨-, hy⟩ := heq
    have hpi := Real.pi_pos
    have hθ1 : Real.pi < (360 - 0.001) / 180 * Real.pi := by nlinarith
    have hθ2 : (360 - 0.001) / 180 * Real.pi < 2 * Real.pi := by nlinarith
    have hsinpos :
        0 < Real.sin ((360 - 0.001) / 180 * Real.pi - Real.pi) :=
      Real.sin_pos_of_pos_of_lt_pi (by linarith) (by linarith)
    have hsin : Real.sin ((360 - 0.001) / 180 * Real.pi) < 0 := by
      have hs := Real.sin_sub_pi ((360 - 0.001) / 180 * Real.pi)
      linarith
    have hs0 : Real.sin ((0 : ℝ) / 180 * Real.pi) = 0 := by
      norm_num
    rw [hs0] at hy
    nlinarith

end CircularGeometry
